import Mathlib

/-!
Verification of the MovieLens matrix-factorization browser demo
(data ingestion, synthetic fallback generation, training orchestration,
prediction and display formatting).

The JavaScript sources are embedded shallowly:
- JS strings become `List Char`; JS numbers become `JNum` (a rational, NaN,
  or a signed infinity) where NaN / Infinity can arise, plain `ℚ` elsewhere.
- `Math.random()` becomes an explicit stream `ℕ → ℚ` of draws in `[0,1)`,
  consumed at an advancing index.  The unbounded retry loop of the
  synthetic generator is given a fuel bound; results are `Option`-valued.
- The TensorFlow.js engine is a black box: model weights and the result of
  `model.fit` enter as parameters; tensor handles are tracked as ids so
  that disposal can be stated.
-/

namespace MovieRec

/-- A JavaScript number as used by this program: an exact rational,
`NaN`, `Infinity` or `-Infinity`. -/
inductive JNum where
  | num (q : ℚ)
  | nan
  | posInf
  | negInf
deriving DecidableEq

/-- Whether a `JNum` is an ordinary (finite) number. -/
def JNum.isNum : JNum → Bool
  | JNum.num _ => true
  | _ => false

/-- `Math.max` on two JS numbers: `NaN` propagates, otherwise the larger
argument, with `-Infinity` as identity. -/
def jsMax : JNum → JNum → JNum
  | JNum.nan, _ => JNum.nan
  | _, JNum.nan => JNum.nan
  | JNum.negInf, b => b
  | a, JNum.negInf => a
  | JNum.posInf, _ => JNum.posInf
  | _, JNum.posInf => JNum.posInf
  | JNum.num a, JNum.num b => JNum.num (max a b)

/-- `Math.max(...l)`: left fold of `jsMax` starting from `Math.max()`,
which is `-Infinity`. -/
def jsMaxList (l : List JNum) : JNum :=
  l.foldl jsMax JNum.negInf

/-- Whitespace as recognised by JS `trim`, `parseInt`, `parseFloat` and the
`\s` regex class (ASCII whitespace plus NBSP and the BOM). -/
def jsIsSpace (c : Char) : Bool :=
  c = ' ' || c = '\t' || c = '\n' || c = '\r' ||
  c.toNat = 11 || c.toNat = 12 || c.toNat = 160 || c.toNat = 65279

/-- `String.prototype.trim`. -/
def jsTrim (l : List Char) : List Char :=
  ((l.dropWhile jsIsSpace).reverse.dropWhile jsIsSpace).reverse

/-- `String.prototype.split` with a single-character separator: keeps empty
fields, so the result always has one more entry than there are separators. -/
def splitOnChar (sep : Char) : List Char → List (List Char)
  | [] => [[]]
  | c :: rest =>
    let r := splitOnChar sep rest
    if c = sep then [] :: r
    else
      match r with
      | [] => [[c]]
      | h :: t => (c :: h) :: t

/-- The leading run of decimal digits of a character list, and the rest. -/
def takeDigits : List Char → List Char × List Char
  | [] => ([], [])
  | c :: rest =>
    if c.isDigit then
      let p := takeDigits rest
      (c :: p.1, p.2)
    else ([], c :: rest)

/-- Value of a list of decimal digit characters. -/
def digitsToNat (ds : List Char) : ℕ :=
  ds.foldl (fun acc c => 10 * acc + (c.toNat - 48)) 0

/-- JS `parseInt(s)` on the decimal inputs this program feeds it: skip
leading whitespace, optional sign, then the longest run of decimal digits;
`NaN` when no digit is found.  (The `0x` hexadecimal prefix of the builtin
is never exercised by these inputs.) -/
def parseIntJS (l : List Char) : JNum :=
  let l1 := l.dropWhile jsIsSpace
  let sr : ℤ × List Char :=
    match l1 with
    | '-' :: r => (-1, r)
    | '+' :: r => (1, r)
    | _ => (1, l1)
  let ds := (takeDigits sr.2).1
  if ds = [] then JNum.nan
  else JNum.num ((sr.1 * (digitsToNat ds : ℤ) : ℤ) : ℚ)

/-- Exponent suffix of a JS float literal after the `e`/`E`: optional sign
then digits; an `e` not followed by digits is not part of the literal, so
it contributes exponent `0`. -/
def expPart (r : List Char) : ℤ :=
  let sr : ℤ × List Char :=
    match r with
    | '-' :: t => (-1, t)
    | '+' :: t => (1, t)
    | _ => (1, r)
  let ds := (takeDigits sr.2).1
  if ds = [] then 0 else sr.1 * (digitsToNat ds : ℤ)

/-- JS `parseFloat(s)`: skip leading whitespace, optional sign, then the
longest prefix that is a decimal literal (`digits [. digits] [e exp]`) or
`Infinity`; `NaN` when no literal is present.  Decimal values are kept
exact as rationals. -/
def parseFloatJS (l : List Char) : JNum :=
  let l1 := l.dropWhile jsIsSpace
  let sr : ℚ × List Char :=
    match l1 with
    | '-' :: r => (-1, r)
    | '+' :: r => (1, r)
    | _ => (1, l1)
  if List.isPrefixOf ("Infinity").data sr.2 then
    if sr.1 < 0 then JNum.negInf else JNum.posInf
  else
    let ip := takeDigits sr.2
    let fp : List Char × List Char :=
      match ip.2 with
      | '.' :: r => takeDigits r
      | _ => ([], ip.2)
    if ip.1 = [] ∧ fp.1 = [] then JNum.nan
    else
      let mant : ℚ := (digitsToNat ip.1 : ℚ) + (digitsToNat fp.1 : ℚ) / (10 : ℚ) ^ fp.1.length
      let e : ℤ :=
        match fp.2 with
        | 'e' :: r3 => expPart r3
        | 'E' :: r3 => expPart r3
        | _ => 0
      JNum.num (sr.1 * mant * (10 : ℚ) ^ e)

/-- A parsed movie record: `{id, title}` (src/data.js `parseItemData`). -/
structure Movie where
  id : JNum
  title : List Char
deriving DecidableEq

/-- A parsed rating record: `{userId, movieId, rating}`
(src/data.js `parseRatingData`). -/
structure Rating where
  userId : JNum
  movieId : JNum
  rating : JNum
deriving DecidableEq

/-- The value returned by `loadData`:
`{movies, ratings, numUsers, numMovies}`. -/
structure Dataset where
  movies : List Movie
  ratings : List Rating
  numUsers : JNum
  numMovies : ℕ
deriving DecidableEq

/-- `text.split('\n').filter(line => line.trim())`: the non-blank lines. -/
def nonBlankLines (text : List Char) : List (List Char) :=
  (splitOnChar '\n' text).filter (fun l => !(jsTrim l).isEmpty)

/-- Strip a trailing `" (YYYY)"` year suffix: the effect of
`title.replace(/\s*\(\d{4}\)$/, '')`. -/
def stripYear (s : List Char) : List Char :=
  match s.reverse with
  | ')' :: d1 :: d2 :: d3 :: d4 :: '(' :: rest =>
    if d1.isDigit ∧ d2.isDigit ∧ d3.isDigit ∧ d4.isDigit then
      (rest.dropWhile jsIsSpace).reverse
    else s
  | _ => s

/-- The loop body of `parseItemData` (src/data.js lines 66-79): each line
with at least 2 pipe-delimited fields yields a movie; others are skipped. -/
def parseItemDataGo : List (List Char) → List Movie
  | [] => []
  | line :: rest =>
    let parts := splitOnChar '|' line
    if 2 ≤ parts.length then
      { id := parseIntJS (parts.getD 0 []),
        title := stripYear (jsTrim (parts.getD 1 [])) } :: parseItemDataGo rest
    else parseItemDataGo rest

/-- `parseItemData` (src/data.js lines 62-83). -/
def parseItemData (text : List Char) : List Movie :=
  parseItemDataGo (nonBlankLines text)

/-- The loop body of `parseRatingData` (src/data.js lines 94-103): each line
with at least 3 tab-delimited fields yields a rating; others are skipped. -/
def parseRatingDataGo : List (List Char) → List Rating
  | [] => []
  | line :: rest =>
    let parts := splitOnChar '\t' line
    if 3 ≤ parts.length then
      { userId := parseIntJS (parts.getD 0 []),
        movieId := parseIntJS (parts.getD 1 []),
        rating := parseFloatJS (parts.getD 2 []) } :: parseRatingDataGo rest
    else parseRatingDataGo rest

/-- `parseRatingData` (src/data.js lines 90-107). -/
def parseRatingData (text : List Char) : List Rating :=
  parseRatingDataGo (nonBlankLines text)

/-- The movie a single catalog line describes, per the spec: first field
parsed as integer id, second field trimmed and stripped of a trailing
year suffix. -/
def movieOfLine (line : List Char) : Movie :=
  let parts := splitOnChar '|' line
  { id := parseIntJS (parts.getD 0 []),
    title := stripYear (jsTrim (parts.getD 1 [])) }

/-- The rating a single data line describes, per the spec: integer userId
and movieId from fields 0 and 1, float rating from field 2, timestamp
discarded. -/
def ratingOfLine (line : List Char) : Rating :=
  let parts := splitOnChar '\t' line
  { userId := parseIntJS (parts.getD 0 []),
    movieId := parseIntJS (parts.getD 1 []),
    rating := parseFloatJS (parts.getD 2 []) }

/-- The parsed-data path of `loadData` (src/data.js lines 35-49): parse both
texts, then `numUsers = Math.max(...ratings.map(r => r.userId))` and
`numMovies = movies.length`. -/
def datasetFromTexts (moviesText ratingsText : List Char) : Dataset :=
  let movies := parseItemData moviesText
  let ratings := parseRatingData ratingsText
  { movies := movies,
    ratings := ratings,
    numUsers := jsMaxList (ratings.map (fun r => r.userId)),
    numMovies := movies.length }

/-- The fixed 20-movie sample catalog of `loadSampleData`
(src/unnamed/part_000 lines 98-119). -/
def sampleMovies : List Movie :=
  [ { id := JNum.num 1, title := ("Toy Story").data },
    { id := JNum.num 2, title := ("GoldenEye").data },
    { id := JNum.num 3, title := ("Four Rooms").data },
    { id := JNum.num 4, title := ("Get Shorty").data },
    { id := JNum.num 5, title := ("Copycat").data },
    { id := JNum.num 6, title := ("Shanghai Triad").data },
    { id := JNum.num 7, title := ("Twelve Monkeys").data },
    { id := JNum.num 8, title := ("Babe").data },
    { id := JNum.num 9, title := ("Dead Man Walking").data },
    { id := JNum.num 10, title := ("Richard III").data },
    { id := JNum.num 11, title := ("Seven").data },
    { id := JNum.num 12, title := ("Usual Suspects").data },
    { id := JNum.num 13, title := ("Mighty Aphrodite").data },
    { id := JNum.num 14, title := ("Postman, The").data },
    { id := JNum.num 15, title := ("Mr. Holland\x27s Opus").data },
    { id := JNum.num 16, title := ("French Twist").data },
    { id := JNum.num 17, title := ("From Dusk Till Dawn").data },
    { id := JNum.num 18, title := ("White Balloon, The").data },
    { id := JNum.num 19, title := ("Antonia\x27s Line").data },
    { id := JNum.num 20, title := ("Angels and Insects").data } ]

/-- The `do { movieId = Math.floor(Math.random()*numMovies)+1 } while
(ratedMovies.has(movieId))` loop (src/unnamed/part_000 lines 135-140).
One unit of fuel per draw; the real loop is unbounded, so a run that would
draw more than `fuel` times is modelled as `none`. -/
def pickFreshMovie (stream : ℕ → ℚ) : ℕ → ℕ → List ℚ → Option (ℚ × ℕ)
  | 0, _, _ => none
  | fuel + 1, idx, rated =>
    let movieId : ℚ := ((⌊stream idx * (sampleMovies.length : ℚ)⌋ : ℤ) : ℚ) + 1
    if movieId ∈ rated then pickFreshMovie stream fuel (idx + 1) rated
    else some (movieId, idx + 1)

/-- The rating-value sampler (src/unnamed/part_000 lines 144-149):
`rand < 0.6` gives `floor(random*2)+4` (4-5), `rand < 0.9` gives exactly 3,
otherwise `floor(random*2)+1` (1-2).  Returns the value and the index after
the draws consumed. -/
def genRatingValue (stream : ℕ → ℚ) (idx : ℕ) : ℚ × ℕ :=
  let rand := stream idx
  if rand < 6 / 10 then (((⌊stream (idx + 1) * 2⌋ : ℤ) : ℚ) + 4, idx + 2)
  else if rand < 9 / 10 then (3, idx + 1)
  else (((⌊stream (idx + 1) * 2⌋ : ℤ) : ℚ) + 1, idx + 2)

/-- The inner `for (let i = 0; i < numRatings; i++)` loop of
`loadSampleData` (src/unnamed/part_000 lines 133-157): pick a fresh movie,
sample a rating value, record the pair, and remember the movie as rated. -/
def genUserRatings (stream : ℕ → ℚ) (fuel : ℕ) (userId : ℚ) :
    ℕ → ℕ → List ℚ → Option (List Rating × ℕ)
  | 0, idx, _ => some ([], idx)
  | count + 1, idx, rated =>
    match pickFreshMovie stream fuel idx rated with
    | none => none
    | some (movieId, idx1) =>
      let rv := genRatingValue stream idx1
      match genUserRatings stream fuel userId count rv.2 (movieId :: rated) with
      | none => none
      | some (rest, idx3) =>
        some ({ userId := JNum.num userId, movieId := JNum.num movieId,
                rating := JNum.num rv.1 } :: rest, idx3)

/-- The outer `for (let userId = 1; userId <= numUsers; userId++)` loop of
`loadSampleData` (src/unnamed/part_000 lines 128-158): each user gets
`Math.floor(Math.random()*10) + 5` ratings. -/
def genAllUsers (stream : ℕ → ℚ) (fuel : ℕ) : ℕ → ℚ → ℕ → Option (List Rating × ℕ)
  | 0, _, idx => some ([], idx)
  | k + 1, u, idx =>
    let numRatings := (⌊stream idx * 10⌋).toNat + 5
    match genUserRatings stream fuel u numRatings (idx + 1) [] with
    | none => none
    | some (rs, idx1) =>
      match genAllUsers stream fuel k (u + 1) idx1 with
      | none => none
      | some (rest, idx2) => some (rs ++ rest, idx2)

/-- `loadSampleData` (src/unnamed/part_000 lines 94-162): the fixed
catalog, `numUsers = 50`, `numMovies = movies.length`, and the generated
ratings for users 1..50. -/
def loadSampleData (stream : ℕ → ℚ) (fuel : ℕ) : Option Dataset :=
  match genAllUsers stream fuel 50 1 0 with
  | none => none
  | some (rs, _) =>
    some { movies := sampleMovies, ratings := rs,
           numUsers := JNum.num 50, numMovies := sampleMovies.length }

/-- The `for (const url of urls)` retrieval loop of `loadData`
(src/unnamed/part_000 lines 32-60): the first attempt that returns
successfully wins; a failed attempt (`!response.ok` or a thrown network
error, both modelled as `none`) is caught, logged and skipped. -/
def firstSuccess : List (Option (List Char)) → Option (List Char)
  | [] => none
  | some t :: _ => some t
  | none :: rest => firstSuccess rest

/-- `loadData` of the fallback loader (src/unnamed/part_000 lines 11-89):
if either resource has no successful source, fall back to
`loadSampleData`; otherwise parse the two texts and derive the dataset
dimensions.  Fetch outcomes enter as parameters (one list per resource),
and the generator's random stream and fuel are threaded through. -/
def loadData (movieFetches ratingFetches : List (Option (List Char)))
    (stream : ℕ → ℚ) (fuel : ℕ) : Option Dataset :=
  match firstSuccess movieFetches, firstSuccess ratingFetches with
  | some mt, some rt => some (datasetFromTexts mt rt)
  | _, _ => loadSampleData stream fuel

/-- `LATENT_DIM` (src/script.js line 5). -/
def LATENT_DIM : ℕ := 10

/-- `EPOCHS` (src/script.js line 6). -/
def EPOCHS : ℕ := 8

/-- `BATCH_SIZE` (src/script.js line 7). -/
def BATCH_SIZE : ℕ := 128

/-- Dot product of two weight vectors (the `tf.layers.dot` output of
`createModel`, src/script.js lines 96-98). -/
def dotList : List ℚ → List ℚ → ℚ
  | a :: as, b :: bs => a * b + dotList as bs
  | _, _ => 0

/-- The matrix-factorization model of `createModel` (src/script.js lines
69-106): two embedding tables looked up by raw integer id; its prediction
is the dot product of the two embedding vectors.  The tensor engine that
owns and updates the weights is a black box, so the tables enter as plain
functions. -/
structure MFModel where
  userEmb : ℤ → List ℚ
  movieEmb : ℤ → List ℚ

/-- `model.predict([userTensor, movieTensor])` followed by reading the
single scalar (src/script.js lines 190-192). -/
def MFModel.predictPair (m : MFModel) (u mid : ℤ) : ℚ :=
  dotList (m.userEmb u) (m.movieEmb mid)

/-- `createModel` (src/script.js lines 69-106) with the engine-initialized
embedding tables passed in. -/
def createModel (initU initM : ℤ → List ℚ) : MFModel :=
  { userEmb := initU, movieEmb := initM }

/-- Truncation toward zero of a rational (JS number-to-integer step). -/
def ratTrunc (q : ℚ) : ℤ :=
  if q < 0 then -⌊-q⌋ else ⌊q⌋

/-- The `int32` conversion applied by `tf.tensor1d([x], 'int32')`:
truncate toward zero and wrap into signed 32-bit range; `NaN` and the
infinities map to 0. -/
def toInt32 : JNum → ℤ
  | JNum.num q => (ratTrunc q + 2 ^ 31) % 2 ^ 32 - 2 ^ 31
  | _ => 0

/-- The page session state relevant to training and prediction: the global
`model` variable (src/script.js line 2), the ids of tensors that have been
created and not yet disposed, a counter supplying fresh tensor ids, and
the last status message written by `updateStatus`. -/
structure AppState where
  model : Option MFModel
  live : List ℕ
  nextId : ℕ
  status : List Char

/-- Result of the awaited `model.fit` call: either the engine returns with
trained weights, or it raises with a message. -/
inductive FitOutcome where
  | success (trained : MFModel)
  | failure (msg : List Char)

/-- The synchronous prefix of `trainModel` executed before `await
model.fit` (src/script.js lines 112-137): assign the global `model`,
compile it, and create the `userTensor`, `movieTensor` and `ratingTensor`
training tensors.  This is the state the session is in while training is
running but not yet completed. -/
def trainMid (s : AppState) (init : MFModel) : AppState :=
  { s with model := some init,
           live := s.live ++ [s.nextId, s.nextId + 1, s.nextId + 2],
           nextId := s.nextId + 3,
           status := ("Starting training...").data }

/-- `trainModel` (src/script.js lines 112-163).  On success the three
training tensors are disposed (lines 151-153) and the completion status is
written; on failure the `catch` block (lines 159-162) only writes the
failure status: the model assigned before `fit` stays set and no tensor is
disposed. -/
def trainModel (s : AppState) (init : MFModel) (fit : FitOutcome) : AppState :=
  let s2 := trainMid s init
  match fit with
  | FitOutcome.success trained =>
    { s2 with model := some trained,
              live := ((s2.live.erase s.nextId).erase (s.nextId + 1)).erase (s.nextId + 2),
              status := ("Model training completed! Ready for predictions.").data }
  | FitOutcome.failure msg =>
    { s2 with status := ("Training failed: ").data ++ msg }

/-- Outcome of one `predictRating` call as seen by the user. -/
inductive PredictOutcome where
  | missingSelection
  | modelNotReady
  | predicted (score : ℚ)
deriving DecidableEq

/-- `predictRating` (src/script.js lines 168-205): an empty user or movie
selection is rejected first; then a missing model signals "Model is not
ready yet"; otherwise the model is invoked on the parsed ids.  The two
input tensors and the prediction tensor are created and disposed within
the call (lines 186-197); the DOM lookups and rendering are outside the
model. -/
def predictRating (s : AppState) (userSel movieSel : List Char) :
    PredictOutcome × AppState :=
  if userSel = [] ∨ movieSel = [] then
    (PredictOutcome.missingSelection, s)
  else
    match s.model with
    | none => (PredictOutcome.modelNotReady, s)
    | some m =>
      let score := m.predictPair (toInt32 (parseIntJS userSel)) (toInt32 (parseIntJS movieSel))
      (PredictOutcome.predicted score,
       { s with nextId := s.nextId + 3,
                live := (((s.live ++ [s.nextId, s.nextId + 1, s.nextId + 2]).erase
                    s.nextId).erase (s.nextId + 1)).erase (s.nextId + 2) })

/-- `Math.max(1, Math.min(5, predictedRating))`
(src/script.js line 214). -/
def clampRating (x : ℚ) : ℚ := max 1 (min 5 x)

/-- The star-rendering loop of `displayPrediction` (src/script.js lines
222-232), one character per `i = 1..5`.  The partial-star branch emits the
same empty-star character as the final branch (the computed percentage is
never used). -/
def starsHTMLLoop (fullStars : ℤ) (partStar : ℚ) : List Char :=
  (List.range 5).map (fun j =>
    if (j : ℤ) + 1 ≤ fullStars then '★'
    else if (j : ℤ) + 1 = fullStars + 1 ∧ 0 < partStar then '☆'
    else '☆')

/-- `n.toFixed(1)` for a nonnegative value: the integer nearest `10n`
(ties toward the larger integer), rendered with one decimal digit. -/
def toFixed1Aux (q : ℚ) : List Char :=
  let n := (⌊q * 10 + 1 / 2⌋).toNat
  Nat.toDigits 10 (n / 10) ++ ('.' :: Nat.toDigits 10 (n % 10))

/-- `Number.prototype.toFixed(1)`. -/
def toFixed1 (q : ℚ) : List Char :=
  if q < 0 then '-' :: toFixed1Aux (-q) else toFixed1Aux q

/-- The visual parts of the prediction display. -/
structure DisplayResult where
  stars : List Char
  score : List Char
deriving DecidableEq

/-- `displayPrediction` (src/script.js lines 212-249), restricted to the
data it derives from the raw score: the clamped rating, the star string,
and the score text `clampedRating.toFixed(1)`.  The surrounding HTML and
the user/movie labels are presentation glue. -/
def displayPrediction (predictedRating : ℚ) : DisplayResult :=
  let clampedRating := clampRating predictedRating
  let fullStars := ⌊clampedRating⌋
  let partStar := clampedRating - fullStars
  { stars := starsHTMLLoop fullStars partStar,
    score := toFixed1 clampedRating }

/-- Ratings of one user in a rating list (used to state the per-user
properties of the synthetic dataset). -/
def userRatings (rs : List Rating) (u : ℚ) : List Rating :=
  rs.filter (fun r => decide (r.userId = JNum.num u))

/-- An all-zero embedding table, used to instantiate the engine-provided
initial weights in concrete states. -/
def zeroEmb : ℤ → List ℚ := fun _ => List.replicate LATENT_DIM 0

/-- A concrete freshly-created model. -/
def m0 : MFModel := createModel zeroEmb zeroEmb

/-- The session state at page load: no model, no live tensors. -/
def s0 : AppState := { model := none, live := [], nextId := 0, status := [] }

/-- Draw values for a concrete run of the synthetic generator: the run
consumes 11 draws per user (1 for the rating count, then per rating 1 for
the movie pick, which always succeeds first try, and 1 for the value
branch, which always lands in the middle `rating = 3` branch). -/
def wpatList : List ℚ :=
  [0, 1/20, 14/20, 2/20, 14/20, 3/20, 14/20, 4/20, 14/20, 5/20, 14/20]

/-- A concrete random stream cycling through `wpatList`. -/
def wstream (n : ℕ) : ℚ := wpatList.getD (n % 11) 0

/-- The synthetic dataset produced by `loadSampleData` on `wstream`. -/
def wds : Dataset :=
  (loadSampleData wstream 1).getD
    { movies := [], ratings := [], numUsers := JNum.nan, numMovies := 0 }

/-- Ratings text with user ids 3, 1, 7 (the example of spec §8 item 3). -/
def c8ExampleText : List Char :=
  ("3\t10\t4\t875071561\n1\t20\t3\t875071562\n7\t30\t5\t875071563").data

/-! ### Theorems -/

unseal Rat.add Rat.mul Rat.sub Rat.inv Rat.ofScientific

theorem parseItemDataGo_eq (ls : List (List Char)) :
    parseItemDataGo ls =
      (ls.filter (fun l => decide (2 ≤ (splitOnChar '|' l).length))).map movieOfLine := by
  induction ls with
  | nil => rfl
  | cons l t ih =>
    by_cases h : 2 ≤ (splitOnChar '|' l).length
    · simp [parseItemDataGo, List.filter_cons, h, ih, movieOfLine]
    · simp [parseItemDataGo, List.filter_cons, h, ih]

theorem parseRatingDataGo_eq (ls : List (List Char)) :
    parseRatingDataGo ls =
      (ls.filter (fun l => decide (3 ≤ (splitOnChar '\t' l).length))).map ratingOfLine := by
  induction ls with
  | nil => rfl
  | cons l t ih =>
    by_cases h : 3 ≤ (splitOnChar '\t' l).length
    · simp [parseRatingDataGo, List.filter_cons, h, ih, ratingOfLine]
    · simp [parseRatingDataGo, List.filter_cons, h, ih]

/-- C6. For every input text, `parseItemData` returns exactly one movie per
non-blank line having at least 2 pipe-delimited fields, in input order,
with the first field parsed as integer id and the second field trimmed and
stripped of a trailing year suffix; lines with fewer than 2 fields are
skipped, and empty input yields the empty list (the `"Toy Story (1995)"`
example strips to `"Toy Story"`). -/
theorem c6_parseMovies :
    (∀ text : List Char,
      parseItemData text =
        ((nonBlankLines text).filter
            (fun l => decide (2 ≤ (splitOnChar '|' l).length))).map movieOfLine) ∧
    parseItemData [] = [] ∧
    parseItemData ("1|Toy Story (1995)|01-Jan-1995").data =
      [{ id := JNum.num 1, title := ("Toy Story").data }] :=
  ⟨fun _ => parseItemDataGo_eq _, by decide, by decide⟩

/-- C7. For every input text, `parseRatingData` returns exactly one rating
per non-blank line having at least 3 tab-delimited fields, with userId and
movieId parsed as integers from fields 0 and 1, the rating the exact float
value of field 2, and the timestamp field discarded; lines with fewer than
3 fields are skipped. -/
theorem c7_parseRatings :
    (∀ text : List Char,
      parseRatingData text =
        ((nonBlankLines text).filter
            (fun l => decide (3 ≤ (splitOnChar '\t' l).length))).map ratingOfLine) ∧
    parseRatingData ("196\t242\t3\t881250949\n186\t302\t3.5\t891717742").data =
      [{ userId := JNum.num 196, movieId := JNum.num 242, rating := JNum.num 3 },
       { userId := JNum.num 186, movieId := JNum.num 302, rating := JNum.num (7/2) }] :=
  ⟨fun _ => parseRatingDataGo_eq _, by decide⟩

theorem foldl_jsMax_num (l : List JNum) :
    ∀ a : ℚ, (∀ x ∈ l, x.isNum = true) →
      ∃ m : ℚ, l.foldl jsMax (JNum.num a) = JNum.num m ∧ a ≤ m ∧
        (m = a ∨ JNum.num m ∈ l) ∧ ∀ q : ℚ, JNum.num q ∈ l → q ≤ m := by
  induction l with
  | nil =>
    intro a _
    exact ⟨a, rfl, le_refl a, Or.inl rfl, by simp⟩
  | cons x t ih =>
    intro a hall
    have hx : x.isNum = true := hall x (by simp)
    cases x with
    | num b =>
      obtain ⟨m, hm, ham, hcases, hub⟩ :=
        ih (max a b) (fun y hy => hall y (List.mem_cons_of_mem _ hy))
      refine ⟨m, ?_, ?_, ?_, ?_⟩
      · simpa [jsMax] using hm
      · exact le_trans (le_max_left a b) ham
      · rcases hcases with h | h
        · rcases max_choice a b with hmax | hmax
          · exact Or.inl (h.trans hmax)
          · exact Or.inr (by simp [h, hmax])
        · exact Or.inr (List.mem_cons_of_mem _ h)
      · intro q hq
        rcases List.mem_cons.mp hq with h | h
        · have hqb : q = b := by injection h
          exact hqb ▸ le_trans (le_max_right a b) ham
        · exact hub q h
    | nan => simp [JNum.isNum] at hx
    | posInf => simp [JNum.isNum] at hx
    | negInf => simp [JNum.isNum] at hx

theorem jsMaxList_num (l : List JNum) (hne : l ≠ [])
    (hall : ∀ x ∈ l, x.isNum = true) :
    ∃ m : ℚ, jsMaxList l = JNum.num m ∧ JNum.num m ∈ l ∧
      ∀ q : ℚ, JNum.num q ∈ l → q ≤ m := by
  cases l with
  | nil => exact absurd rfl hne
  | cons x t =>
    have hx : x.isNum = true := hall x (by simp)
    cases x with
    | num b =>
      obtain ⟨m, hm, hbm, hcases, hub⟩ :=
        foldl_jsMax_num t b (fun y hy => hall y (List.mem_cons_of_mem _ hy))
      refine ⟨m, ?_, ?_, ?_⟩
      · simpa [jsMaxList, jsMax] using hm
      · rcases hcases with h | h
        · simp [h]
        · exact List.mem_cons_of_mem _ h
      · intro q hq
        rcases List.mem_cons.mp hq with h | h
        · have hqb : q = b := by injection h
          exact hqb ▸ hbm
        · exact hub q h
    | nan => simp [JNum.isNum] at hx
    | posInf => simp [JNum.isNum] at hx
    | negInf => simp [JNum.isNum] at hx

/-- C8. After loading parsed data, `numMovies` is the count of parsed
movies, and `numUsers` is the maximum `userId` over the parsed ratings
(stated for a nonempty rating list whose user ids are ordinary numbers: a
value attained by some rating and bounding every rating's user id); in the
spec's example with user ids 3, 1, 7 the computed `numUsers` is 7. -/
theorem c8_dimensions :
    (∀ mt rt : List Char,
      (datasetFromTexts mt rt).ratings ≠ [] →
      (∀ r ∈ (datasetFromTexts mt rt).ratings, (r.userId).isNum = true) →
      (datasetFromTexts mt rt).numMovies = (datasetFromTexts mt rt).movies.length ∧
      ∃ m : ℚ, (datasetFromTexts mt rt).numUsers = JNum.num m ∧
        (∃ r ∈ (datasetFromTexts mt rt).ratings, r.userId = JNum.num m) ∧
        ∀ r ∈ (datasetFromTexts mt rt).ratings, ∀ q : ℚ, r.userId = JNum.num q → q ≤ m) ∧
    (datasetFromTexts [] c8ExampleText).numUsers = JNum.num 7 := by
  refine ⟨fun mt rt hne hall => ⟨rfl, ?_⟩, by decide⟩
  have hmapne : (parseRatingData rt).map (fun r => r.userId) ≠ [] := by
    simpa [datasetFromTexts] using hne
  have hmapall : ∀ x ∈ (parseRatingData rt).map (fun r => r.userId), x.isNum = true := by
    intro x hx
    obtain ⟨r, hr, hrx⟩ := List.mem_map.mp hx
    exact hrx ▸ hall r hr
  obtain ⟨m, hm, hmem, hub⟩ := jsMaxList_num _ hmapne hmapall
  refine ⟨m, hm, ?_, ?_⟩
  · obtain ⟨r, hr, hrm⟩ := List.mem_map.mp hmem
    exact ⟨r, hr, hrm⟩
  · intro r hr q hq
    exact hub q (List.mem_map.mpr ⟨r, hr, hq⟩)

theorem c8_dimensions_witness :
    (datasetFromTexts [] c8ExampleText).numMovies =
      (datasetFromTexts [] c8ExampleText).movies.length ∧
    ∃ m : ℚ, (datasetFromTexts [] c8ExampleText).numUsers = JNum.num m ∧
      (∃ r ∈ (datasetFromTexts [] c8ExampleText).ratings, r.userId = JNum.num m) ∧
      ∀ r ∈ (datasetFromTexts [] c8ExampleText).ratings,
        ∀ q : ℚ, r.userId = JNum.num q → q ≤ m :=
  c8_dimensions.1 [] c8ExampleText (by decide) (by decide)

theorem parseRatingDataGo_nil (ls : List (List Char))
    (h : ∀ l ∈ ls, (splitOnChar '\t' l).length < 3) :
    parseRatingDataGo ls = [] := by
  induction ls with
  | nil => rfl
  | cons l t ih =>
    have hl := h l (by simp)
    rw [parseRatingDataGo, if_neg (by omega)]
    exact ih (fun x hx => h x (List.mem_cons_of_mem _ hx))

/-- C10. When the ratings text has no line with at least 3 tab-delimited
fields, the parsed rating list is empty and the computed `numUsers` is
`Math.max()` of nothing, which is `-Infinity` — not a positive number, so
the returned dataset violates the positive dimension assumption used to
size the user embedding table. -/
theorem c10_empty_ratings (mt rt : List Char)
    (h : ∀ l ∈ splitOnChar '\n' rt, (splitOnChar '\t' l).length < 3) :
    (datasetFromTexts mt rt).ratings = [] ∧
    (datasetFromTexts mt rt).numUsers = JNum.negInf ∧
    ∀ q : ℚ, 0 < q → (datasetFromTexts mt rt).numUsers ≠ JNum.num q := by
  have hnil : parseRatingData rt = [] := by
    refine parseRatingDataGo_nil _ (fun l hl => ?_)
    exact h l (List.mem_of_mem_filter hl)
  refine ⟨by simpa [datasetFromTexts] using hnil, ?_, ?_⟩
  · simp [datasetFromTexts, hnil, jsMaxList]
  · intro q _
    simp [datasetFromTexts, hnil, jsMaxList]

theorem clampRating_bounds (x : ℚ) : 1 ≤ clampRating x ∧ clampRating x ≤ 5 := by
  unfold clampRating
  exact ⟨le_max_left 1 _, max_le (by norm_num) (min_le_left 5 x)⟩

theorem starsHTMLLoop_eq (fs : ℤ) (p : ℚ) (h1 : 1 ≤ fs) (h5 : fs ≤ 5) :
    starsHTMLLoop fs p =
      List.replicate fs.toNat '★' ++ List.replicate (5 - fs.toNat) '☆' := by
  have hcases : fs = 1 ∨ fs = 2 ∨ fs = 3 ∨ fs = 4 ∨ fs = 5 := by omega
  rcases hcases with h | h | h | h | h <;> subst h <;>
    · simp only [starsHTMLLoop, ite_self]
      decide

/-- C9. For every raw score, the display clamps the score into `[1, 5]`,
renders `floor(clamped)` full stars followed by empty stars up to 5 (the
partial-star branch renders an empty star), and prints the clamped score
to one decimal place; concretely 0.3 clamps to 1.0, 7.9 clamps to 5.0, and
3.6 prints as "3.6" with 3 full stars. -/
theorem c9_display :
    (∀ x : ℚ, 1 ≤ clampRating x ∧ clampRating x ≤ 5) ∧
    (∀ x : ℚ, (displayPrediction x).stars =
      List.replicate (⌊clampRating x⌋).toNat '★' ++
        List.replicate (5 - (⌊clampRating x⌋).toNat) '☆') ∧
    (∀ x : ℚ, (displayPrediction x).score = toFixed1 (clampRating x)) ∧
    clampRating (3/10) = 1 ∧ clampRating (79/10) = 5 ∧
    (displayPrediction (3/10)).score = ("1.0").data ∧
    (displayPrediction (79/10)).score = ("5.0").data ∧
    (displayPrediction (18/5)).score = ("3.6").data ∧
    ⌊clampRating (18/5)⌋ = 3 ∧
    (displayPrediction (18/5)).stars = ("★★★☆☆").data := by
  refine ⟨clampRating_bounds, fun x => ?_, fun _ => rfl,
    by decide, by decide, by decide, by decide, by decide, by decide, by decide⟩
  have hb := clampRating_bounds x
  have h1 : 1 ≤ ⌊clampRating x⌋ := by
    rw [Int.le_floor]
    exact_mod_cast hb.1
  have h5 : ⌊clampRating x⌋ ≤ 5 := by
    have := Int.floor_le_floor (α := ℚ) hb.2
    simpa using this
  exact starsHTMLLoop_eq _ _ h1 h5

theorem c10_empty_ratings_witness :
    (datasetFromTexts [] ("1\t2\n").data).ratings = [] ∧
    (datasetFromTexts [] ("1\t2\n").data).numUsers = JNum.negInf ∧
    ∀ q : ℚ, 0 < q → (datasetFromTexts [] ("1\t2\n").data).numUsers ≠ JNum.num q :=
  c10_empty_ratings [] (("1\t2\n").data) (by decide)

/-- C1 counterexample. In the state reached once `trainModel` has started
but `fit` has not yet completed (`trainMid s0 m0`), a prediction request
with both selections made is not rejected with `ModelNotReady`: the global
`model` was assigned before fitting, so the request is served. -/
theorem c1_counterexample :
    ¬ (predictRating (trainMid s0 m0) ("1").data ("2").data).1 =
        PredictOutcome.modelNotReady := by decide

/-- C1 amended. `predictRating` returns `ModelNotReady` exactly when both
selections are non-empty and the global `model` is unset; since
`trainModel` assigns the model synchronously before awaiting `fit`, a
request issued after training has started (state `trainMid`) is not
rejected — only requests issued before `trainModel` begins are. -/
theorem c1_not_ready_iff :
    (∀ (s : AppState) (uSel mSel : List Char),
      ((predictRating s uSel mSel).1 = PredictOutcome.modelNotReady ↔
        (uSel ≠ [] ∧ mSel ≠ [] ∧ s.model = none))) ∧
    (∀ (s : AppState) (init : MFModel), (trainMid s init).model = some init) ∧
    (∀ (s : AppState) (init : MFModel) (uSel mSel : List Char),
      uSel ≠ [] → mSel ≠ [] →
      (predictRating (trainMid s init) uSel mSel).1 ≠ PredictOutcome.modelNotReady) := by
  have hiff : ∀ (s : AppState) (uSel mSel : List Char),
      ((predictRating s uSel mSel).1 = PredictOutcome.modelNotReady ↔
        (uSel ≠ [] ∧ mSel ≠ [] ∧ s.model = none)) := by
    intro s uSel mSel
    by_cases hsel : uSel = [] ∨ mSel = []
    · rw [predictRating, if_pos hsel]
      constructor
      · intro h; exact PredictOutcome.noConfusion h
      · rintro ⟨hu, hm, -⟩
        rcases hsel with h | h
        · exact absurd h hu
        · exact absurd h hm
    · push_neg at hsel
      cases hmodel : s.model with
      | none =>
        rw [predictRating, if_neg (by simp [hsel.1, hsel.2]), hmodel]
        simp [hsel.1, hsel.2, hmodel]
      | some m =>
        rw [predictRating, if_neg (by simp [hsel.1, hsel.2]), hmodel]
        constructor
        · intro h; exact PredictOutcome.noConfusion h
        · rintro ⟨-, -, hnone⟩
          exact Option.noConfusion hnone
  refine ⟨hiff, fun s init => rfl, ?_⟩
  intro s init uSel mSel hu hm h
  have := (hiff (trainMid s init) uSel mSel).mp h
  exact Option.noConfusion this.2.2

theorem c1_not_ready_iff_witness :
    ((predictRating s0 ("1").data ("2").data).1 = PredictOutcome.modelNotReady ↔
      (("1").data ≠ [] ∧ ("2").data ≠ [] ∧ s0.model = none)) ∧
    (trainMid s0 m0).model = some m0 ∧
    (predictRating (trainMid s0 m0) ("1").data ("2").data).1 ≠
      PredictOutcome.modelNotReady :=
  ⟨c1_not_ready_iff.1 s0 (("1").data) (("2").data),
   c1_not_ready_iff.2.1 s0 m0,
   c1_not_ready_iff.2.2 s0 m0 (("1").data) (("2").data) (by decide) (by decide)⟩

/-- C2 counterexample. Running `trainModel` from the fresh session state
with a failing `fit` leaves the global `model` set (the partially trained
model assigned before fitting), and a subsequent prediction request is
served rather than rejected with `ModelNotReady`. -/
theorem c2_counterexample :
    (trainModel s0 m0 (FitOutcome.failure ("boom").data)).model.isSome = true ∧
    ¬ (predictRating (trainModel s0 m0 (FitOutcome.failure ("boom").data))
        ("1").data ("2").data).1 = PredictOutcome.modelNotReady :=
  ⟨rfl, by decide⟩

/-- C2 amended. When `fit` raises, the `catch` block only writes the
failure status: the model assigned at training start remains set, and
every subsequent predict call with both selections made returns a
predicted score from that partial model instead of `ModelNotReady`. -/
theorem c2_failure_keeps_model :
    (∀ (s : AppState) (init : MFModel) (msg : List Char),
      (trainModel s init (FitOutcome.failure msg)).model = some init ∧
      (trainModel s init (FitOutcome.failure msg)).status =
        ("Training failed: ").data ++ msg) ∧
    (∀ (s : AppState) (init : MFModel) (msg uSel mSel : List Char),
      uSel ≠ [] → mSel ≠ [] →
      ∃ q : ℚ, (predictRating (trainModel s init (FitOutcome.failure msg)) uSel mSel).1 =
        PredictOutcome.predicted q) := by
  refine ⟨fun s init msg => ⟨rfl, rfl⟩, ?_⟩
  intro s init msg uSel mSel hu hm
  have hor : ¬ (uSel = [] ∨ mSel = []) := by
    rintro (h | h)
    · exact hu h
    · exact hm h
  rw [predictRating, if_neg hor]
  exact ⟨_, rfl⟩

theorem c2_failure_keeps_model_witness :
    ((trainModel s0 m0 (FitOutcome.failure ("x").data)).model = some m0 ∧
      (trainModel s0 m0 (FitOutcome.failure ("x").data)).status =
        ("Training failed: ").data ++ ("x").data) ∧
    ∃ q : ℚ, (predictRating (trainModel s0 m0 (FitOutcome.failure ("x").data))
        ("1").data ("2").data).1 = PredictOutcome.predicted q :=
  ⟨c2_failure_keeps_model.1 s0 m0 (("x").data),
   c2_failure_keeps_model.2 s0 m0 (("x").data) (("1").data) (("2").data)
     (by decide) (by decide)⟩

/-- C3 counterexample. Running `trainModel` from the fresh session state
with a failing `fit`: the three training tensors (ids 0, 1, 2) allocated
by the call are still live afterwards, while the state started with no
live tensors — the failure path releases nothing. -/
theorem c3_counterexample :
    (trainModel s0 m0 (FitOutcome.failure ("boom").data)).live = [0, 1, 2] ∧
    s0.live = [] := by decide

theorem erase_append_of_notMem {a : ℕ} :
    ∀ (l₁ l₂ : List ℕ), a ∉ l₁ → (l₁ ++ l₂).erase a = l₁ ++ l₂.erase a := by
  intro l₁ l₂ h
  induction l₁ with
  | nil => rfl
  | cons x t ih =>
    have hxa : ¬ x = a := fun hx => h (hx ▸ List.mem_cons_self x t)
    have hat : a ∉ t := fun ht => h (List.mem_cons_of_mem _ ht)
    simp only [List.cons_append, List.erase_cons, beq_iff_eq, if_neg hxa, ih hat]

/-- C3 amended. The user, movie and rating tensors created by `trainModel`
are all disposed on the successful path (the live-tensor list returns to
its initial value), but when `fit` raises, the `catch` block disposes
nothing: all three tensors remain live. -/
theorem c3_tensor_disposal :
    (∀ (s : AppState) (init trained : MFModel),
      (∀ t ∈ s.live, t < s.nextId) →
      (trainModel s init (FitOutcome.success trained)).live = s.live) ∧
    (∀ (s : AppState) (init : MFModel) (msg : List Char),
      (trainModel s init (FitOutcome.failure msg)).live =
        s.live ++ [s.nextId, s.nextId + 1, s.nextId + 2]) := by
  constructor
  · intro s init trained hfresh
    show (((s.live ++ [s.nextId, s.nextId + 1, s.nextId + 2]).erase
        s.nextId).erase (s.nextId + 1)).erase (s.nextId + 2) = s.live
    have h0 : s.nextId ∉ s.live := fun h => by
      have := hfresh _ h; omega
    have h1 : s.nextId + 1 ∉ s.live := fun h => by
      have := hfresh _ h; omega
    have h2 : s.nextId + 2 ∉ s.live := fun h => by
      have := hfresh _ h; omega
    rw [erase_append_of_notMem _ _ h0, List.erase_cons_head,
      erase_append_of_notMem _ _ h1, List.erase_cons_head,
      erase_append_of_notMem _ _ h2, List.erase_cons_head, List.append_nil]
  · intro s init msg
    rfl

theorem c3_tensor_disposal_witness :
    (trainModel s0 m0 (FitOutcome.success m0)).live = s0.live ∧
    (trainModel s0 m0 (FitOutcome.failure ("x").data)).live =
      s0.live ++ [s0.nextId, s0.nextId + 1, s0.nextId + 2] :=
  ⟨c3_tensor_disposal.1 s0 m0 m0 (by decide),
   c3_tensor_disposal.2 s0 m0 (("x").data)⟩

theorem floor_mul2_cases (r : ℚ) (h0 : 0 ≤ r) (h1 : r < 1) :
    ⌊r * 2⌋ = 0 ∨ ⌊r * 2⌋ = 1 := by
  have hge : 0 ≤ ⌊r * 2⌋ := Int.floor_nonneg.mpr (by nlinarith)
  have hlt : ⌊r * 2⌋ < 2 := by
    rw [Int.floor_lt]
    push_cast
    nlinarith
  omega

theorem floor_mul10_bounds (r : ℚ) (h0 : 0 ≤ r) (h1 : r < 1) :
    0 ≤ ⌊r * 10⌋ ∧ ⌊r * 10⌋ ≤ 9 := by
  have hge : 0 ≤ ⌊r * 10⌋ := Int.floor_nonneg.mpr (by nlinarith)
  have hlt : ⌊r * 10⌋ < 10 := by
    rw [Int.floor_lt]
    push_cast
    nlinarith
  omega

theorem pickFreshMovie_spec (stream : ℕ → ℚ) :
    ∀ (fuel idx : ℕ) (rated : List ℚ) (m : ℚ) (idx' : ℕ),
      pickFreshMovie stream fuel idx rated = some (m, idx') → m ∉ rated := by
  intro fuel
  induction fuel with
  | zero =>
    intro idx rated m idx' h
    exact Option.noConfusion h
  | succ f ih =>
    intro idx rated m idx' h
    rw [pickFreshMovie] at h
    split_ifs at h with hmem
    · exact ih _ _ _ _ h
    · injection h with h1
      injection h1 with ha hb
      exact ha ▸ hmem

theorem genRatingValue_mem (stream : ℕ → ℚ)
    (hb : ∀ n : ℕ, 0 ≤ stream n ∧ stream n < 1) (idx : ℕ) :
    1 ≤ (genRatingValue stream idx).1 ∧ (genRatingValue stream idx).1 ≤ 5 := by
  have h2 := floor_mul2_cases (stream (idx + 1)) (hb (idx + 1)).1 (hb (idx + 1)).2
  rw [genRatingValue]
  split_ifs with hr1 hr2
  · rcases h2 with h | h <;> · simp [h]; try norm_num
  · norm_num
  · rcases h2 with h | h <;> · simp [h]; try norm_num

theorem genRatingValue_dist (stream : ℕ → ℚ)
    (hb : ∀ n : ℕ, 0 ≤ stream n ∧ stream n < 1) (idx : ℕ) :
    (((genRatingValue stream idx).1 = 4 ∨ (genRatingValue stream idx).1 = 5) ↔
      stream idx < 6/10) ∧
    ((genRatingValue stream idx).1 = 3 ↔ (6/10 ≤ stream idx ∧ stream idx < 9/10)) ∧
    (((genRatingValue stream idx).1 = 1 ∨ (genRatingValue stream idx).1 = 2) ↔
      9/10 ≤ stream idx) := by
  have h2 := floor_mul2_cases (stream (idx + 1)) (hb (idx + 1)).1 (hb (idx + 1)).2
  rw [genRatingValue]
  split_ifs with hr1 hr2
  · have hn1 : ¬ ((6:ℚ)/10 ≤ stream idx) := by linarith
    have hn2 : ¬ ((9:ℚ)/10 ≤ stream idx) := by linarith
    rcases h2 with h | h <;> rw [h] <;> norm_num [hr1, hn1, hn2] <;> linarith
  · have h61 : (6:ℚ)/10 ≤ stream idx := le_of_not_lt hr1
    have hn : ¬ ((9:ℚ)/10 ≤ stream idx) := by linarith
    norm_num [hr1, hr2, h61, hn]
    linarith
  · have h9 : (9:ℚ)/10 ≤ stream idx := le_of_not_lt hr2
    rcases h2 with h | h <;> rw [h] <;> norm_num [hr1, hr2, h9] <;> linarith

theorem userRatings_append (l₁ l₂ : List Rating) (u : ℚ) :
    userRatings (l₁ ++ l₂) u = userRatings l₁ u ++ userRatings l₂ u := by
  simp [userRatings, List.filter_append]

theorem userRatings_of_all (l : List Rating) (u : ℚ)
    (h : ∀ r ∈ l, r.userId = JNum.num u) : userRatings l u = l := by
  unfold userRatings
  refine List.filter_eq_self.mpr ?_
  intro r hr
  simp [h r hr]

theorem userRatings_nil_of_ne (l : List Rating) (u : ℚ)
    (h : ∀ r ∈ l, r.userId ≠ JNum.num u) : userRatings l u = [] := by
  unfold userRatings
  induction l with
  | nil => rfl
  | cons x t ih =>
    rw [List.filter_cons, if_neg (by simp [h x (List.mem_cons_self x t)])]
    exact ih (fun r hr => h r (List.mem_cons_of_mem _ hr))

theorem genUserRatings_length (stream : ℕ → ℚ) (fuel : ℕ) (u : ℚ) :
    ∀ (count idx : ℕ) (rated : List ℚ) (rs : List Rating) (idx' : ℕ),
      genUserRatings stream fuel u count idx rated = some (rs, idx') →
      rs.length = count := by
  intro count
  induction count with
  | zero =>
    intro idx rated rs idx' h
    rw [genUserRatings] at h
    injection h with h1
    injection h1 with hrs hidx
    simp [← hrs]
  | succ c ih =>
    intro idx rated rs idx' h
    rw [genUserRatings] at h
    cases hp : pickFreshMovie stream fuel idx rated with
    | none =>
      simp only [hp] at h
      exact Option.noConfusion h
    | some p =>
      obtain ⟨m, idx1⟩ := p
      simp only [hp] at h
      cases hrec : genUserRatings stream fuel u c (genRatingValue stream idx1).2
          (m :: rated) with
      | none =>
        simp only [hrec] at h
        exact Option.noConfusion h
      | some pr =>
        obtain ⟨rest, idx3⟩ := pr
        simp only [hrec, Option.some.injEq, Prod.mk.injEq] at h
        obtain ⟨hrs, hidx⟩ := h
        rw [← hrs]
        simp [ih _ _ _ _ hrec]

theorem genUserRatings_spec (stream : ℕ → ℚ)
    (hb : ∀ n : ℕ, 0 ≤ stream n ∧ stream n < 1) (fuel : ℕ) (u : ℚ) :
    ∀ (count idx : ℕ) (rated : List ℚ) (rs : List Rating) (idx' : ℕ),
      genUserRatings stream fuel u count idx rated = some (rs, idx') →
      rs.length = count ∧
      (∀ r ∈ rs, r.userId = JNum.num u) ∧
      (∀ r ∈ rs, ∃ m : ℚ, r.movieId = JNum.num m ∧ m ∉ rated) ∧
      (rs.map (fun r => r.movieId)).Nodup ∧
      (∀ r ∈ rs, ∃ v : ℚ, r.rating = JNum.num v ∧ 1 ≤ v ∧ v ≤ 5) := by
  intro count
  induction count with
  | zero =>
    intro idx rated rs idx' h
    rw [genUserRatings] at h
    injection h with h1
    injection h1 with hrs hidx
    rw [← hrs]
    exact ⟨rfl, by simp, by simp, by simp, by simp⟩
  | succ c ih =>
    intro idx rated rs idx' h
    rw [genUserRatings] at h
    cases hp : pickFreshMovie stream fuel idx rated with
    | none =>
      simp only [hp] at h
      exact Option.noConfusion h
    | some p =>
      obtain ⟨m, idx1⟩ := p
      simp only [hp] at h
      cases hrec : genUserRatings stream fuel u c (genRatingValue stream idx1).2
          (m :: rated) with
      | none =>
        simp only [hrec] at h
        exact Option.noConfusion h
      | some pr =>
        obtain ⟨rest, idx3⟩ := pr
        simp only [hrec, Option.some.injEq, Prod.mk.injEq] at h
        obtain ⟨hrs, hidx⟩ := h
        obtain ⟨ihlen, ihuser, ihmov, ihnodup, ihval⟩ := ih _ _ _ _ hrec
        have hmfresh : m ∉ rated := pickFreshMovie_spec stream _ _ _ _ _ hp
        rw [← hrs]
        refine ⟨by simp [ihlen], ?_, ?_, ?_, ?_⟩
        · intro r hr
          rcases List.mem_cons.mp hr with hr | hr
          · rw [hr]
          · exact ihuser r hr
        · intro r hr
          rcases List.mem_cons.mp hr with hr | hr
          · exact ⟨m, by rw [hr], hmfresh⟩
          · obtain ⟨m', hm', hnotin⟩ := ihmov r hr
            exact ⟨m', hm', fun hc => hnotin (List.mem_cons_of_mem _ hc)⟩
        · rw [List.map_cons]
          refine List.nodup_cons.mpr ⟨?_, ihnodup⟩
          intro hmem
          obtain ⟨r, hr, hrm⟩ := List.mem_map.mp hmem
          obtain ⟨m', hm', hnotin⟩ := ihmov r hr
          rw [hm'] at hrm
          have : m' = m := by injection hrm
          exact hnotin (this ▸ List.mem_cons_self m rated)
        · intro r hr
          rcases List.mem_cons.mp hr with hr | hr
          · obtain ⟨hv1, hv5⟩ := genRatingValue_mem stream hb idx1
            exact ⟨(genRatingValue stream idx1).1, by rw [hr], hv1, hv5⟩
          · exact ihval r hr

theorem genAllUsers_spec (stream : ℕ → ℚ)
    (hb : ∀ n : ℕ, 0 ≤ stream n ∧ stream n < 1) (fuel : ℕ) :
    ∀ (k : ℕ) (u : ℚ) (idx : ℕ) (rs : List Rating) (idx' : ℕ),
      genAllUsers stream fuel k u idx = some (rs, idx') →
      (∀ r ∈ rs, ∃ j : ℕ, j < k ∧ r.userId = JNum.num (u + (j : ℚ))) ∧
      (∀ j : ℕ, j < k →
        5 ≤ (userRatings rs (u + (j : ℚ))).length ∧
        (userRatings rs (u + (j : ℚ))).length ≤ 14 ∧
        ((userRatings rs (u + (j : ℚ))).map (fun r => r.movieId)).Nodup) ∧
      (∀ r ∈ rs, ∃ v : ℚ, r.rating = JNum.num v ∧ 1 ≤ v ∧ v ≤ 5) := by
  intro k
  induction k with
  | zero =>
    intro u idx rs idx' h
    rw [genAllUsers] at h
    injection h with h1
    injection h1 with hrs hidx
    rw [← hrs]
    exact ⟨by simp, fun j hj => absurd hj (by omega), by simp⟩
  | succ k ih =>
    intro u idx rs idx' h
    rw [genAllUsers] at h
    cases hblk : genUserRatings stream fuel u ((⌊stream idx * 10⌋).toNat + 5)
        (idx + 1) [] with
    | none =>
      simp only [hblk] at h
      exact Option.noConfusion h
    | some pb =>
      obtain ⟨block, idx1⟩ := pb
      simp only [hblk] at h
      cases hrest : genAllUsers stream fuel k (u + 1) idx1 with
      | none =>
        simp only [hrest] at h
        exact Option.noConfusion h
      | some pr =>
        obtain ⟨rest, idx2⟩ := pr
        simp only [hrest, Option.some.injEq, Prod.mk.injEq] at h
        obtain ⟨hrs, hidx⟩ := h
        obtain ⟨hlen, huser, hmov, hnodup, hval⟩ :=
          genUserRatings_spec stream hb fuel u _ _ _ _ _ hblk
        obtain ⟨ihuser, ihcount, ihval⟩ := ih (u + 1) _ _ _ hrest
        have hnum : 5 ≤ block.length ∧ block.length ≤ 14 := by
          have hfb := floor_mul10_bounds (stream idx) (hb idx).1 (hb idx).2
          omega
        rw [← hrs]
        refine ⟨?_, ?_, ?_⟩
        · intro r hr
          rcases List.mem_append.mp hr with hr | hr
          · refine ⟨0, by omega, ?_⟩
            rw [huser r hr]
            norm_num
          · obtain ⟨j, hj, he⟩ := ihuser r hr
            refine ⟨j + 1, by omega, ?_⟩
            rw [he]
            push_cast
            ring_nf
        · intro j hj
          rw [userRatings_append]
          cases j with
          | zero =>
            have hv : u + ((0 : ℕ) : ℚ) = u := by norm_num
            rw [hv, userRatings_of_all block u huser,
              userRatings_nil_of_ne rest u ?_, List.append_nil]
            · exact ⟨hnum.1, hnum.2, hnodup⟩
            · intro r hr
              obtain ⟨j', hj', he⟩ := ihuser r hr
              rw [he]
              intro hc
              injection hc with hq
              have hjq : (0:ℚ) ≤ (j' : ℚ) := Nat.cast_nonneg j'
              linarith [hq]
          | succ j' =>
            have hv : u + ((j' + 1 : ℕ) : ℚ) = (u + 1) + (j' : ℚ) := by
              push_cast
              ring
            rw [hv, userRatings_nil_of_ne block ((u + 1) + (j' : ℚ)) ?_,
              List.nil_append]
            · exact ihcount j' (by omega)
            · intro r hr
              rw [huser r hr]
              intro hc
              injection hc with hq
              have hjq : (0:ℚ) ≤ (j' : ℚ) := Nat.cast_nonneg j'
              linarith [hq]
        · intro r hr
          rcases List.mem_append.mp hr with hr | hr
          · exact hval r hr
          · exact ihval r hr

theorem loadSampleData_spec (stream : ℕ → ℚ) (fuel : ℕ) (ds : Dataset)
    (hb : ∀ n : ℕ, 0 ≤ stream n ∧ stream n < 1)
    (h : loadSampleData stream fuel = some ds) :
    ds.movies = sampleMovies ∧ ds.numMovies = 20 ∧ ds.numUsers = JNum.num 50 ∧
    (∀ u : ℕ, 1 ≤ u → u ≤ 50 →
      5 ≤ (userRatings ds.ratings (u : ℚ)).length ∧
      (userRatings ds.ratings (u : ℚ)).length ≤ 14 ∧
      ((userRatings ds.ratings (u : ℚ)).map (fun r => r.movieId)).Nodup) ∧
    (∀ r ∈ ds.ratings, ∃ j : ℕ, 1 ≤ j ∧ j ≤ 50 ∧ r.userId = JNum.num (j : ℚ)) ∧
    (∀ r ∈ ds.ratings, ∃ v : ℚ, r.rating = JNum.num v ∧ 1 ≤ v ∧ v ≤ 5) := by
  rw [loadSampleData] at h
  cases hg : genAllUsers stream fuel 50 1 0 with
  | none =>
    simp only [hg] at h
    exact Option.noConfusion h
  | some p =>
    obtain ⟨rs, idxf⟩ := p
    simp only [hg, Option.some.injEq] at h
    obtain ⟨huser, hcount, hval⟩ := genAllUsers_spec stream hb fuel 50 1 0 rs idxf hg
    rw [← h]
    refine ⟨rfl, rfl, rfl, ?_, ?_, hval⟩
    · intro u h1u h50
      have hj : u - 1 < 50 := by omega
      have hc := hcount (u - 1) hj
      have hcast : (1 : ℚ) + ((u - 1 : ℕ) : ℚ) = (u : ℚ) := by
        rw [Nat.cast_sub h1u]
        push_cast
        ring
      rw [hcast] at hc
      exact hc
    · intro r hr
      obtain ⟨j, hj, he⟩ := huser r hr
      refine ⟨j + 1, by omega, by omega, ?_⟩
      rw [he]
      push_cast
      ring_nf

/-- C4. Whenever the synthetic fallback generator terminates (its retry
loop is fuelled; the random stream draws lie in `[0,1)` as `Math.random`
guarantees), the dataset has exactly 20 movies and `numUsers = 50`; every
user 1..50 has between 5 and 15 generated ratings with no duplicate movie
per user, and every rating's user id lies in 1..50; rating values lie in
1..5, drawn 4-5 exactly when the branch draw is below 0.6 (probability
60% for a uniform draw), exactly 3 when it is in [0.6, 0.9) (30%), and
1-2 when it is at least 0.9 (10%). -/
theorem c4_sample_dataset (stream : ℕ → ℚ) (fuel : ℕ) (ds : Dataset)
    (hb : ∀ n : ℕ, 0 ≤ stream n ∧ stream n < 1)
    (h : loadSampleData stream fuel = some ds) :
    ds.movies.length = 20 ∧ ds.numMovies = 20 ∧ ds.numUsers = JNum.num 50 ∧
    (∀ u : ℕ, 1 ≤ u → u ≤ 50 →
      5 ≤ (userRatings ds.ratings (u : ℚ)).length ∧
      (userRatings ds.ratings (u : ℚ)).length ≤ 15 ∧
      ((userRatings ds.ratings (u : ℚ)).map (fun r => r.movieId)).Nodup) ∧
    (∀ r ∈ ds.ratings, ∃ j : ℕ, 1 ≤ j ∧ j ≤ 50 ∧ r.userId = JNum.num (j : ℚ)) ∧
    (∀ r ∈ ds.ratings, ∃ v : ℚ, r.rating = JNum.num v ∧ 1 ≤ v ∧ v ≤ 5) ∧
    (∀ idx : ℕ,
      (((genRatingValue stream idx).1 = 4 ∨ (genRatingValue stream idx).1 = 5) ↔
        stream idx < 6/10) ∧
      ((genRatingValue stream idx).1 = 3 ↔
        (6/10 ≤ stream idx ∧ stream idx < 9/10)) ∧
      (((genRatingValue stream idx).1 = 1 ∨ (genRatingValue stream idx).1 = 2) ↔
        9/10 ≤ stream idx)) := by
  obtain ⟨hm, hnm, hnu, hcount, husers, hval⟩ := loadSampleData_spec stream fuel ds hb h
  refine ⟨by rw [hm]; rfl, hnm, hnu, ?_, husers, hval,
    fun idx => genRatingValue_dist stream hb idx⟩
  intro u h1u h50
  obtain ⟨hc1, hc2, hc3⟩ := hcount u h1u h50
  exact ⟨hc1, by omega, hc3⟩

theorem wstream_bounds : ∀ n : ℕ, 0 ≤ wstream n ∧ wstream n < 1 := by
  intro n
  have h11 : n % 11 < 11 := Nat.mod_lt _ (by norm_num)
  have hall : ∀ k : ℕ, k < 11 → 0 ≤ wpatList.getD k 0 ∧ wpatList.getD k 0 < 1 := by
    decide
  exact hall _ h11

set_option maxRecDepth 10000 in
theorem wds_eq : loadSampleData wstream 1 = some wds := by decide

theorem c4_sample_dataset_witness :
    wds.movies.length = 20 ∧ wds.numMovies = 20 ∧ wds.numUsers = JNum.num 50 ∧
    5 ≤ (userRatings wds.ratings ((1 : ℕ) : ℚ)).length ∧
    (userRatings wds.ratings ((50 : ℕ) : ℚ)).length ≤ 15 ∧
    ((userRatings wds.ratings ((25 : ℕ) : ℚ)).map (fun r => r.movieId)).Nodup := by
  have H := c4_sample_dataset wstream 1 wds wstream_bounds wds_eq
  exact ⟨H.1, H.2.1, H.2.2.1,
    (H.2.2.2.1 1 (by norm_num) (by norm_num)).1,
    (H.2.2.2.1 50 (by norm_num) (by norm_num)).2.1,
    (H.2.2.2.1 25 (by norm_num) (by norm_num)).2.2⟩

theorem genAllUsers_five_le (stream : ℕ → ℚ) (fuel : ℕ) :
    ∀ (k : ℕ) (u : ℚ) (idx : ℕ) (rs : List Rating) (idx' : ℕ),
      genAllUsers stream fuel (k + 1) u idx = some (rs, idx') → 5 ≤ rs.length := by
  intro k u idx rs idx' h
  rw [genAllUsers] at h
  cases hblk : genUserRatings stream fuel u ((⌊stream idx * 10⌋).toNat + 5)
      (idx + 1) [] with
  | none =>
    simp only [hblk] at h
    exact Option.noConfusion h
  | some pb =>
    obtain ⟨block, idx1⟩ := pb
    simp only [hblk] at h
    cases hrest : genAllUsers stream fuel k (u + 1) idx1 with
    | none =>
      simp only [hrest] at h
      exact Option.noConfusion h
    | some pr =>
      obtain ⟨rest, idx2⟩ := pr
      simp only [hrest, Option.some.injEq, Prod.mk.injEq] at h
      obtain ⟨hrs, hidx⟩ := h
      have hlen := genUserRatings_length stream fuel u _ _ _ _ _ hblk
      rw [← hrs]
      simp only [List.length_append]
      omega

/-- C5. The fallback Dataset Loader never propagates a retrieval failure:
when every source location fails for either resource (no fetch attempt in
the chain succeeds), `loadData` returns exactly the synthetic generator's
output, and whenever that generator terminates its dataset is non-empty
(20 movies, at least 5 ratings). -/
theorem c5_fallback (movieFetches ratingFetches : List (Option (List Char)))
    (stream : ℕ → ℚ) (fuel : ℕ)
    (h : firstSuccess movieFetches = none ∨ firstSuccess ratingFetches = none) :
    loadData movieFetches ratingFetches stream fuel = loadSampleData stream fuel ∧
    ∀ ds : Dataset, loadSampleData stream fuel = some ds →
      ds.movies.length = 20 ∧ 0 < ds.ratings.length := by
  constructor
  · rw [loadData]
    cases hm : firstSuccess movieFetches with
    | none =>
      cases hr : firstSuccess ratingFetches with
      | none => rfl
      | some rt => rfl
    | some mt =>
      cases hr : firstSuccess ratingFetches with
      | none => rfl
      | some rt =>
        rcases h with h | h
        · rw [hm] at h
          exact Option.noConfusion h
        · rw [hr] at h
          exact Option.noConfusion h
  · intro ds hds
    rw [loadSampleData] at hds
    cases hg : genAllUsers stream fuel 50 1 0 with
    | none =>
      simp only [hg] at hds
      exact Option.noConfusion hds
    | some p =>
      obtain ⟨rs, idxf⟩ := p
      simp only [hg, Option.some.injEq] at hds
      have h5 : 5 ≤ rs.length := genAllUsers_five_le stream fuel 49 1 0 rs idxf hg
      rw [← hds]
      exact ⟨rfl, by simpa using (by omega : 0 < rs.length)⟩

theorem c5_fallback_witness :
    loadData [none, none, none] [none, none, none] wstream 1 =
      loadSampleData wstream 1 ∧
    wds.movies.length = 20 ∧ 0 < wds.ratings.length := by
  have H := c5_fallback [none, none, none] [none, none, none] wstream 1 (Or.inl rfl)
  exact ⟨H.1, (H.2 wds wds_eq).1, (H.2 wds wds_eq).2⟩

end MovieRec
